import Mathlib

/-!
Verification of `smartspread/smart_tab.py` (the `SmartTab` tab accessor).

The Python module is shallowly embedded below.  Conventions:

* Python scalar cell values become the inductive type `PyVal`.  The three
  missing-value sentinels that occur in the pipeline (`None`, float `NaN`,
  `pd.NA`) are kept as distinct constructors because the code distinguishes
  them (object columns hold `None`, float columns hold `NaN`, `Int64`
  columns hold `pd.NA`); `pd.isna` recognises all three.
* Python floats are idealised as exact rationals `ℚ`.
* Raised exceptions become `Except PyErr` / an `err : Option PyErr` field;
  `PyErr.valueError` models `ValueError`, `PyErr.runtimeError` models
  `RuntimeError` (and any other exception wrapped into one).
* The `data_format = "list"` representation (list of lists, first row the
  header) is the canonical in-memory representation used for the stateful
  claims; `Df` (column labels plus row-major cells) embeds the DataFrame
  representation for the row operations.
* Remote `gspread` calls are modelled by an oracle `ok : RemoteOp → Bool`
  telling which remote calls succeed; a call that fails raises
  `RuntimeError` exactly as the wrapped client would.
-/

/-- Scalar cell value of the embedded Python code.  `vnone` is `None`,
`vnan` is float `NaN`, `vna` is `pandas.NA`; floats are idealised as `ℚ`. -/
inductive PyVal where
  | vnone : PyVal
  | vnan : PyVal
  | vna : PyVal
  | vbool : Bool → PyVal
  | vint : Int → PyVal
  | vfloat : ℚ → PyVal
  | vstr : String → PyVal
deriving DecidableEq

/-- Model of `pd.isna` on a scalar: true exactly on the three
missing-value sentinels `None`, `NaN`, `pd.NA`. -/
def pd_isna : PyVal → Bool
  | .vnone => true
  | .vnan => true
  | .vna => true
  | _ => false

/-- Numeric value of a Python scalar, when it has one (`bool` counts as
`0`/`1`, as in Python, where `True == 1` holds). -/
def numVal : PyVal → Option ℚ
  | .vbool b => some (if b then 1 else 0)
  | .vint n => some (n : ℚ)
  | .vfloat q => some q
  | _ => none

/-- Model of the elementwise comparison `series == value` performed by
pandas on object columns: a missing value on either side never compares
equal (pandas fills comparisons against `None`/`NaN` with `False`);
numeric scalars compare by numeric value (so `2 == 2.0` and `True == 1`);
everything else compares by structural equality. -/
def pyEq (a b : PyVal) : Bool :=
  if pd_isna a || pd_isna b then false
  else
    match numVal a, numVal b with
    | some x, some y => decide (x = y)
    | _, _ => decide (a = b)

/-- Python exceptions that the embedded code raises. -/
inductive PyErr where
  | valueError : PyErr
  | runtimeError : PyErr
deriving DecidableEq

deriving instance DecidableEq for Except

/-- A raw grid of cell texts as fetched from the spreadsheet service. -/
abbrev RawGrid := List (List String)

/-- A grid of typed cells (the `data_format = "list"` representation). -/
abbrev Grid := List (List PyVal)

/-- Digit list helper: value of a non-empty all-digit character list;
`none` when the list is empty or has a non-digit. -/
def parseDigits (cs : List Char) : Option Nat :=
  if cs.isEmpty then none
  else if cs.all Char.isDigit then
    some (cs.foldl (fun a c => a * 10 + (c.toNat - 48)) 0)
  else none

/-- Split a character list at every `'.'`, like Python's
`str.split(".")`. -/
def splitDot : List Char → List (List Char)
  | [] => [[]]
  | c :: rest =>
    let r := splitDot rest
    if c = '.' then [] :: r
    else
      match r with
      | [] => [[c]]
      | h :: t => (c :: h) :: t

/-- Model of `pd.to_numeric(·, errors='coerce')` applied to one cell
text: parses an optional sign, an integer part and an optional decimal
fraction into an exact rational; returns `none` (pandas: `NaN`) when the
text is not such a numeric literal.  Exotic numeric spellings (exponents,
`inf`, surrounding whitespace) do not occur in the claims and are not
modelled. -/
def to_numeric (s : String) : Option ℚ :=
  let cs := s.toList
  let (sign, body) : Int × List Char :=
    match cs with
    | '-' :: rest => (-1, rest)
    | '+' :: rest => (1, rest)
    | _ => (1, cs)
  match splitDot body with
  | [intPart] => (parseDigits intPart).map (fun n => mkRat (sign * n) 1)
  | [intPart, fracPart] =>
    match parseDigits intPart, parseDigits fracPart with
    | some a, some b =>
      some (mkRat (sign * (a * 10 ^ fracPart.length + b)) (10 ^ fracPart.length))
    | _, _ => none
  | _ => none

/-- Model of `df[col].replace("", None)` on one raw cell: the empty
string becomes missing, everything else is kept. -/
def normCell (s : String) : Option String :=
  if s = "" then none else some s

/-- Model of the per-column type-inference loop of `read_data`
(`smart_tab.py` lines 154-182), applied to one column after empty strings
were normalised to missing.  Follows the source exactly: if every value
is missing the column is left untouched (a column of `None`); otherwise
`pd.to_numeric(errors='coerce')` is applied, and if the coerced series
has any non-missing entry and every successfully parsed value has zero
fractional part the column becomes nullable `Int64` (missing marker
`pd.NA`); else if the coerced series has any non-missing entry the column
becomes float (missing marker `NaN`); else the column stays text, with
the literal text `"None"` mapped back to missing by
`.astype(str).replace('None', None)`. -/
def inferColumn (vals : List (Option String)) : List PyVal :=
  if vals.all Option.isNone then
    vals.map (fun _ => PyVal.vnone)
  else
    let converted := vals.map (fun v => v.bind to_numeric)
    if converted.any Option.isSome &&
        (converted.filterMap id).all (fun q => q.den = 1) then
      converted.map (fun o => match o with
        | none => PyVal.vna
        | some q => PyVal.vint q.num)
    else if converted.any Option.isSome then
      converted.map (fun o => match o with
        | none => PyVal.vnan
        | some q => PyVal.vfloat q)
    else
      vals.map (fun v => match v with
        | none => PyVal.vnone
        | some s => if s = "None" then PyVal.vnone else PyVal.vstr s)

/-- Model of the header fix-up of `read_data` (lines 148-152): a blank
header cell at 0-based position `i` is replaced by `"Column_<i+1>"`;
non-blank header cells are kept unchanged. -/
def fixColumns (headers : List String) : List String :=
  headers.mapIdx (fun i col => if col = "" then "Column_" ++ toString (i + 1) else col)

/-- Model of the row padding of `read_data` (lines 142-145): every data
row is right-padded with `""` and truncated to the header width. -/
def padRow (n : Nat) (r : List String) : List String :=
  (r ++ List.replicate (n - r.length) "").take n

/-- Model of `read_data` for `data_format = "list"` (lines 132-193): on a
raw grid, fail with `ValueError` when the grid is empty or its first row
is empty; otherwise fix the headers, pad the rows, run the per-column
type inference, and return `[headers] + data rows` with every
pandas-missing sentinel normalised to `None` (line 189). -/
def read_data_list (values : RawGrid) : Except PyErr Grid :=
  if values.isEmpty || (values.headD []).isEmpty then
    .error .valueError
  else
    let headers := values.headD []
    let n := headers.length
    let dataRows := values.tail.map (padRow n)
    let cols := fixColumns headers
    let inferredCols :=
      (List.range n).map (fun j => inferColumn (dataRows.map (fun r => normCell (r.getD j ""))))
    let outRows :=
      (List.range dataRows.length).map (fun i =>
        inferredCols.map (fun c =>
          let v := c.getD i PyVal.vnone
          if pd_isna v then PyVal.vnone else v))
    .ok ((cols.map PyVal.vstr) :: outRows)

/-- Model of `read_data` including the raw fetch: `_read_values` either
returns the raw grid or raises (its failures are wrapped into
`RuntimeError`), and `read_data` re-raises any such error. -/
def read_data (fetch : Except PyErr RawGrid) : Except PyErr Grid :=
  match fetch with
  | .error e => .error e
  | .ok values => read_data_list values

/-- Sanitised form of one scalar, as produced by the `sanitize` helper
inside `_calculate_data_hash`: every missing sentinel collapses to
`None`, everything else is kept. -/
def sanitizeCell (v : PyVal) : PyVal :=
  if pd_isna v then PyVal.vnone else v

/-- Model of the recursive `sanitize` helper of `_calculate_data_hash`
(lines 15-22), specialised to the list-of-lists representation the
claims are about: it maps `sanitizeCell` over every cell. -/
def sanitize (g : Grid) : Grid :=
  g.map (fun row => row.map sanitizeCell)

/-- Model of the list-data branch of `_calculate_data_hash` (lines
14-23, 26), the branch taken for the `data_format = "list"` states the
write/read theorems are about: the source computes
`md5(json.dumps(sanitize(data), sort_keys=True))`.  (The DataFrame
branch, lines 12-13, is modelled separately by
`hash_pandas_object_model` and `calculate_data_hash_full` below.)
`json.dumps` (with sorted keys) is an injective canonical encoding of
the sanitised value, and the md5 digest is a deterministic function of
that encoding which is injective up to the negligible-probability
collisions the spec's "with overwhelming probability" refers to; the
digest is therefore represented by the sanitised value itself.  (On
nested lists no dictionary-key sorting is involved.) -/
def calculate_data_hash (g : Grid) : Grid :=
  sanitize g

/-- Tab accessor state: the in-memory tabular data (in the list-of-lists
representation) and the stored fingerprint (`self._stored_data_hash`,
`none` modelling Python `None`). -/
structure TabState where
  data : Grid
  storedHash : Option Grid
deriving DecidableEq

/-- Model of the skip guard of `write_data` (line 262):
`if self._stored_data_hash and self._stored_data_hash == _calculate_data_hash(self.data)`.
A present digest is a 32-character hex string and therefore always
truthy, so the guard holds exactly when a digest is stored and equals
the digest of the current data. -/
def hashGuard (st : TabState) : Bool :=
  st.storedHash = some (calculate_data_hash st.data)

/-- Remote calls `write_data` can make against the worksheet, in order of
appearance in the source; `update` carries the A1 target range passed to
`worksheet.update` (`none` in the overwrite branch, which updates from
the top-left without an explicit range). -/
inductive RemoteOp where
  | clear : RemoteOp
  | update : Option String → RemoteOp
  | setFilter : RemoteOp
  | freeze : RemoteOp
  | format : RemoteOp
deriving DecidableEq

/-- The single character of the end-cell column computed by `write_data`
line 275: `chr(65 + len(values[0]) - 1)`. -/
def endColChar (ncols : Nat) : Char :=
  Char.ofNat (65 + ncols - 1)

/-- The end cell of the non-overwrite target range (line 275):
`f'{chr(65 + len(values[0]) - 1)}{len(values)}'`. -/
def endCell (ncols nrows : Nat) : String :=
  String.mk [endColChar ncols] ++ toString nrows

/-- Model of `_data_as_list` for list-of-lists data (lines 196-208).  A
non-empty list of lists is returned unchanged.  The empty list matches
the all-rows-are-dicts branch first (a vacuous `all`), where
`self.data[0]` raises `IndexError`; `write_data`'s handler wraps that
into `RuntimeError`. -/
def data_as_list (d : Grid) : Except PyErr Grid :=
  if d.isEmpty then .error .runtimeError else .ok d

/-- Run a sequence of remote calls against the success oracle: calls are
attempted in order; the first failing call raises `RuntimeError` and no
later call is attempted.  Returns the calls actually attempted and the
error, if any. -/
def runOps (ops : List RemoteOp) (ok : RemoteOp → Bool) : List RemoteOp × Option PyErr :=
  match ops with
  | [] => ([], none)
  | op :: rest =>
    if ok op then
      let r := runOps rest ok
      (op :: r.1, r.2)
    else ([op], some .runtimeError)

/-- Result of one `write_data` call: the accessor state afterwards, the
remote calls attempted, and the raised error, if any. -/
structure WriteResult where
  state : TabState
  calls : List RemoteOp
  err : Option PyErr
deriving DecidableEq

/-- Model of `write_data` (lines 251-289) on list-of-lists data.  If the
stored fingerprint matches the current data the call returns at once with
no remote call.  Otherwise the data is converted by `_data_as_list`,
rejected with `ValueError` when its first row is empty, and written:
`clear` plus a full `update` when `overwrite_tab`, else a single `update`
of the range `A1:<endCell>`; with `as_table` a basic filter, a header
freeze and a bold format call follow.  Only when every remote call
succeeded is the stored fingerprint replaced by the digest of the current
data; on any error the state is left unchanged and the error propagates. -/
def write_data (st : TabState) (ok : RemoteOp → Bool)
    (overwrite_tab as_table : Bool) : WriteResult :=
  if hashGuard st then ⟨st, [], none⟩
  else
    match data_as_list st.data with
    | .error e => ⟨st, [], some e⟩
    | .ok values =>
      if (values.headD []).isEmpty then ⟨st, [], some .valueError⟩
      else
        let ops :=
          (if overwrite_tab then [RemoteOp.clear, RemoteOp.update none]
           else [RemoteOp.update (some ("A1:" ++ endCell (values.headD []).length values.length))])
          ++ (if as_table then [RemoteOp.setFilter, RemoteOp.freeze, RemoteOp.format] else [])
        let r := runOps ops ok
        match r.2 with
        | none => ⟨⟨st.data, some (calculate_data_hash st.data)⟩, r.1, none⟩
        | some e => ⟨st, r.1, some e⟩

/-- Whether a remote call is a write of cell contents (a
`worksheet.update` call). -/
def isUpdateOp : RemoteOp → Bool
  | .update _ => true
  | _ => false

/-- Number of remote cell-writing calls in a call trace. -/
def countUpdates (calls : List RemoteOp) : Nat :=
  (calls.filter isUpdateOp).length

/-- Model of the eager read in `SmartTab.__init__` (lines 68-73): run the
read pipeline on the fetched raw values; a `ValueError` (empty or
headerless tab) is caught and degrades to an empty table with a `None`
fingerprint; any other error propagates; on success the fingerprint of
the data just read is stored. -/
def init_tab (fetch : Except PyErr RawGrid) : Except PyErr TabState :=
  match read_data fetch with
  | .ok d => .ok ⟨d, some (calculate_data_hash d)⟩
  | .error .valueError => .ok ⟨[], none⟩
  | .error e => .error e

/-- A pandas column label: either a name (string) or a positional integer
label as produced by `pd.DataFrame(list_of_lists)`. -/
inductive ColLabel where
  | name : String → ColLabel
  | pos : Nat → ColLabel
deriving DecidableEq

/-- DataFrame model: ordered column labels and row-major cells. -/
structure Df where
  cols : List ColLabel
  rows : List (List PyVal)
deriving DecidableEq

/-- Index of a column label in a label list (`df.columns.get_loc`). -/
def colIdx (cols : List ColLabel) (c : ColLabel) : Option Nat :=
  cols.findIdx? (fun x => decide (x = c))

/-- Model of `df[c] = None` for an absent column: appends the label and
extends every row with a `None` cell; an already-present column is left
unchanged. -/
def ensure_col (df : Df) (c : ColLabel) : Df :=
  if df.cols.contains c then df
  else ⟨df.cols ++ [c], df.rows.map (fun r => r ++ [PyVal.vnone])⟩

/-- Model of `pd.DataFrame(list_of_lists)` as built by
`_data_as_dataframe` on list data (lines 210-215): positional integer
column labels `0..n-1` where `n` is the longest row, every row (the
header row included, as an ordinary data row) right-padded with `NaN`. -/
def list_to_df (d : Grid) : Df :=
  let n := (d.map List.length).foldr max 0
  ⟨(List.range n).map ColLabel.pos,
   d.map (fun r => r ++ List.replicate (n - r.length) PyVal.vnan)⟩

/-- Apply an update mapping to one row: for each `(column, value)` pair
in order, overwrite the cell under that column label (`df.at[i, col]`).
All update columns exist by the time this runs, so the `none` fallback is
dead code kept for totality. -/
def apply_updates (cols : List ColLabel) (row : List PyVal)
    (updates : List (String × PyVal)) : List PyVal :=
  updates.foldl (fun r u =>
    match colIdx cols (ColLabel.name u.1) with
    | some j => r.set j u.2
    | none => r) row

/-- The appended row of the no-match branch (lines 327-329): a row of
`None` under every column, then `column` set to `value`, then the update
mapping applied on top. -/
def new_row (cols : List ColLabel) (column : String) (value : PyVal)
    (updates : List (String × PyVal)) : List PyVal :=
  apply_updates cols
    (apply_updates cols (cols.map (fun _ => PyVal.vnone)) [(column, value)])
    updates

/-- Model of `update_row_by_column_pattern` (lines 292-348) acting on the
DataFrame form of the data.  After the argument checks, the match column
and every update column are created (filled with `None`) when absent;
the first row whose cell under the match column compares `==` to `value`
is updated in place by the update mapping; when no row matches, `new_row`
is appended.  `updates` models the Python dict as an ordered key-value
list. -/
def update_row_by_column_pattern (df : Df) (column : String) (value : PyVal)
    (updates : List (String × PyVal)) : Except PyErr Df :=
  if column = "" then .error .valueError
  else if updates.isEmpty then .error .valueError
  else
    let df1 := ensure_col df (ColLabel.name column)
    let df2 := updates.foldl (fun d u => ensure_col d (ColLabel.name u.1)) df1
    let j := (colIdx df2.cols (ColLabel.name column)).getD 0
    match df2.rows.findIdx? (fun r => pyEq (r.getD j PyVal.vnone) value) with
    | some i =>
      .ok ⟨df2.cols, df2.rows.set i (apply_updates df2.cols (df2.rows.getD i []) updates)⟩
    | none =>
      .ok ⟨df2.cols, df2.rows ++ [new_row df2.cols column value updates]⟩

/-- Token of a compiled regular expression; the fragment needed here has
literal characters and the `.` metacharacter (any character). -/
inductive ReTok where
  | lit : Char → ReTok
  | dot : ReTok
deriving DecidableEq

/-- Compile a pattern string the way `re` reads the fragment used here:
`.` matches any character, every other character of the patterns under
consideration is a literal.  (Other `re` metacharacters do not occur in
the patterns the theorems below quantify over.) -/
def compilePattern (p : String) : List ReTok :=
  p.toList.map (fun c => if c = '.' then ReTok.dot else ReTok.lit c)

/-- Whether one token matches one character. -/
def tokMatches : ReTok → Char → Bool
  | .lit c, d => c = d
  | .dot, _ => true

/-- Whether the token list matches some leading segment of the text. -/
def matchHere : List ReTok → List Char → Bool
  | [], _ => true
  | _ :: _, [] => false
  | t :: ts, c :: cs => tokMatches t c && matchHere ts cs

/-- Model of `re.search`: the token list matches starting at some
position of the text. -/
def reSearch (ts : List ReTok) : List Char → Bool
  | [] => matchHere ts []
  | c :: cs => matchHere ts (c :: cs) || reSearch ts cs

/-- Model of one entry of `series.str.contains(pattern, na=False)`: a
string cell is tested with `re.search`; a missing cell gives `NaN`,
filled to `False` by `na=False`; a non-string cell also yields a missing
result, likewise filled to `False`. -/
def str_contains (pattern : String) (cell : PyVal) : Bool :=
  match cell with
  | .vstr s => reSearch (compilePattern pattern) s.toList
  | _ => false

/-- Whether a cell is a string. -/
def isStrCell : PyVal → Bool
  | .vstr _ => true
  | _ => false

/-- Model of `filter_rows_by_column` (lines 219-248): empty `column`,
empty `pattern` or an absent column raise `ValueError`; the `.str`
accessor raises (wrapped into `RuntimeError`) when the column's present
values are all non-strings (a numeric or boolean dtype); otherwise the
rows whose cell under the column satisfies
`str.contains(pattern, na=False)` are returned. -/
def filter_rows_by_column (df : Df) (column pattern : String) :
    Except PyErr (List (List PyVal)) :=
  if column = "" then .error .valueError
  else if pattern = "" then .error .valueError
  else
    match colIdx df.cols (ColLabel.name column) with
    | none => .error .valueError
    | some j =>
      let cells := df.rows.map (fun r => r.getD j PyVal.vnone)
      if cells.any (fun c => !pd_isna c) &&
          cells.all (fun c => pd_isna c || !isStrCell c) then
        .error .runtimeError
      else
        .ok (df.rows.filter (fun r => str_contains pattern (r.getD j PyVal.vnone)))

/-- Element-wise equivalence of two cells in the sense of the
fingerprint claim: equal, or both missing (any representation). -/
def cellEquiv (a b : PyVal) : Prop :=
  (pd_isna a = true ∧ pd_isna b = true) ∨ a = b

/-- Python-dict lookup in the ordered key-value list modelling an update
mapping: the value under the first occurrence of the key. -/
def dictGet (updates : List (String × PyVal)) (c : String) : Option PyVal :=
  (updates.find? (fun u => decide (u.1 = c))).map Prod.snd

/-- The metacharacters of Python's `re` syntax.  A pattern avoiding all
of them is matched purely literally by `re.search`. -/
def reMetachars : List Char :=
  ['.', '^', '$', '*', '+', '?', '\x7b', '\x7d', '[', ']', '(', ')', '|', '\\']

/-- A pattern string that `re` treats as a literal: none of its
characters is a metacharacter. -/
def literalPattern (p : String) : Prop :=
  ∀ c ∈ p.toList, c ∉ reMetachars

/-- Python `str(val)` on a scalar cell, the byte encoding pandas'
`hash_object_array` feeds to the hash for object-dtype columns: a string
encodes as itself, every other object as its `str(...)` rendering, so
`None` becomes `"None"`, float `NaN` becomes `"nan"`, `pd.NA` becomes
`"<NA>"`, and the integer `1` becomes `"1"` (colliding with the string
`"1"`).  The spelling of a non-integral float is idealised as an exact
fraction (Python renders a decimal); no theorem depends on it. -/
def str_of_cell : PyVal → String
  | .vnone => "None"
  | .vnan => "nan"
  | .vna => "<NA>"
  | .vbool b => if b then "True" else "False"
  | .vint n => toString n
  | .vfloat q =>
    if q.den = 1 then toString q.num ++ ".0"
    else toString q.num ++ "/" ++ toString q.den
  | .vstr s => s

/-- Model of the DataFrame branch of `_calculate_data_hash` (lines
12-13): `md5(pd.util.hash_pandas_object(df, index=True).values.tobytes())`
for an object-dtype frame.  `hash_pandas_object` hashes, per row, the
`str(val)`-encoded bytes of each cell (`hash_object_array`) mixed with
the hashed default range index; the index contribution and the hash
mixing are deterministic and injective up to the negligible collisions
the spec's "overwhelming probability" allows, so the digest is
represented by the table of encoded cell bytes.  Note this branch has no
`sanitize` step: the distinct missing sentinels keep their distinct
`str(...)` encodings. -/
def hash_pandas_object_model (df : Df) : List (List String) :=
  df.rows.map (fun r => r.map str_of_cell)

/-- An in-memory Tabular Data value as dispatched on by
`_calculate_data_hash`: a pandas DataFrame, or the list representation
(list of lists; the record-list form takes the same json path). -/
inductive TabularData where
  | df : Df → TabularData
  | listRep : Grid → TabularData
deriving DecidableEq

/-- A modelled digest.  The two branches of `_calculate_data_hash` feed
md5 with bytes in different conventions (raw `hash_pandas_object` words
for a DataFrame, a json document for a list), so digests from different
branches are kept apart. -/
inductive HashDigest where
  | ofDf : List (List String) → HashDigest
  | ofList : Grid → HashDigest
deriving DecidableEq

/-- Model of `_calculate_data_hash` (lines 11-26) over both branches: a
DataFrame is hashed via `pd.util.hash_pandas_object` (no sanitising),
list data via `md5(json.dumps(sanitize(data), sort_keys=True))`. -/
def calculate_data_hash_full : TabularData → HashDigest
  | .df d => .ofDf (hash_pandas_object_model d)
  | .listRep g => .ofList (calculate_data_hash g)

/-- Whether a character is a valid single-letter A1 column reference,
`'A'` through `'Z'` (code points 65 through 90). -/
def isA1ColumnLetter (c : Char) : Bool :=
  decide (65 ≤ c.toNat) && decide (c.toNat ≤ 90)

/-- C10: in the non-overwrite write path the end column is the single
character at code point `65 + (column count - 1)`; for a non-empty grid
this is a valid A1 column letter (`A`-`Z`) exactly when the grid has at
most 26 columns, so any grid with more than 26 columns gets an invalid
column reference (no multi-letter column arithmetic exists). -/
theorem claim_C10_endcol (n : Nat) (h : 1 ≤ n) :
    isA1ColumnLetter (endColChar n) = true ↔ n ≤ 26 := by
  have h64 : 65 + n - 1 = 64 + n := by omega
  rw [endColChar, h64]
  by_cases hv : (64 + n).isValidChar
  · have ht : (Char.ofNat (64 + n)).toNat = 64 + n := by
      simp [Char.ofNat, hv, Char.ofNatAux, Char.toNat, UInt32.toNat, UInt32.ofNat']
    simp only [isA1ColumnLetter, ht, Bool.and_eq_true, decide_eq_true_iff]
    omega
  · have ht : (Char.ofNat (64 + n)).toNat = 0 := by
      simp [Char.ofNat, hv, Char.toNat, UInt32.toNat]
    simp only [isA1ColumnLetter, ht, Bool.and_eq_true, decide_eq_true_iff]
    constructor
    · omega
    · intro hn
      exact absurd (Or.inl (by omega : 64 + n < 55296)) hv

/-- Witness for `claim_C10_endcol` at a concrete 27-column grid: the
computed character is not a valid column letter. -/
theorem claim_C10_endcol_witness :
    1 ≤ 27 ∧ (isA1ColumnLetter (endColChar 27) = true ↔ 27 ≤ 26) :=
  ⟨by decide, claim_C10_endcol 27 (by decide)⟩

/-- C6 counterexample: the claim asserts the resulting column
identifiers are always pairwise unique, but a non-blank header that
collides with the placeholder of a blank header is kept, producing a
duplicate name. -/
theorem claim_C6_counterexample :
    fixColumns ["Column_2", ""] = ["Column_2", "Column_2"] ∧
    ¬ (fixColumns ["Column_2", ""]).Nodup := by
  exact ⟨by decide, by decide⟩

/-- Helper: a placeholder column name is never the empty string. -/
theorem placeholder_ne_empty (i : Nat) : "Column_" ++ toString (i + 1) ≠ "" := by
  intro h
  have hlen := congrArg String.length h
  rw [String.length_append] at hlen
  have h1 : ("Column_" : String).length = 7 := rfl
  have h2 : ("" : String).length = 0 := rfl
  omega

/-- C6 (amended): in the read pipeline a blank header cell at 0-based
position `i` is replaced by `"Column_<i+1>"`, a non-blank header cell is
kept unchanged, and every resulting identifier is non-empty; uniqueness,
however, is not guaranteed (see `claim_C6_counterexample`). -/
theorem claim_C6_placeholders (headers : List String) (i : Nat)
    (hi : i < headers.length) (h2 : i < (fixColumns headers).length) :
    (headers.get ⟨i, hi⟩ = "" →
      (fixColumns headers).get ⟨i, h2⟩ = "Column_" ++ toString (i + 1)) ∧
    (headers.get ⟨i, hi⟩ ≠ "" →
      (fixColumns headers).get ⟨i, h2⟩ = headers.get ⟨i, hi⟩) ∧
    (fixColumns headers).get ⟨i, h2⟩ ≠ "" := by
  unfold fixColumns at h2 ⊢
  rw [List.get_mapIdx headers _ i hi h2]
  by_cases hb : headers.get ⟨i, hi⟩ = ""
  · rw [if_pos hb]
    exact ⟨fun _ => rfl, fun hne => absurd hb hne, placeholder_ne_empty i⟩
  · rw [if_neg hb]
    exact ⟨fun he => absurd he hb, fun _ => rfl, hb⟩

/-- Witness for `claim_C6_placeholders` on the header row `["", "A"]` at
position 0. -/
theorem claim_C6_placeholders_witness :
    ((["", "A"].get ⟨0, by decide⟩ : String) = "" →
      (fixColumns ["", "A"]).get ⟨0, by decide⟩ = "Column_" ++ toString (0 + 1)) ∧
    ((["", "A"].get ⟨0, by decide⟩ : String) ≠ "" →
      (fixColumns ["", "A"]).get ⟨0, by decide⟩ = ["", "A"].get ⟨0, by decide⟩) ∧
    (fixColumns ["", "A"]).get ⟨0, by decide⟩ ≠ "" :=
  claim_C6_placeholders ["", "A"] 0 (by decide) (by decide)

/-- C1 counterexample: in the column `["5", "abc"]` not every present
value parses as numeric, so the claim requires the column to be retained
as text; the code instead coerces it to a nullable integer column,
turning `"abc"` into a missing value. -/
theorem claim_C1_counterexample :
    inferColumn [some "5", some "abc"] = [PyVal.vint 5, PyVal.vna] ∧
    inferColumn [some "5", some "abc"] ≠ [PyVal.vstr "5", PyVal.vstr "abc"] := by
  exact ⟨by decide, by decide⟩

/-- C1 (amended): per column, independently: if every value is missing
the column is left as an untyped column of nulls.  Otherwise, when at
least one present value parses as numeric and every present value that
parses has zero fractional part, the column becomes a nullable integer
column in which present values that fail to parse are coerced to
missing; else, when at least one present value parses as numeric, it
becomes a nullable float column, again coercing unparseable present
values to missing; only when no present value parses as numeric is the
column retained as text, with missing values preserved as null and never
as the literal text `"None"` (a present literal `"None"` is also turned
into null).  The original claim's "all present values parse" condition
is refuted by `claim_C1_counterexample`. -/
theorem claim_C1_inference (vals : List (Option String)) :
    ((∀ v ∈ vals, v = none) →
      inferColumn vals = vals.map (fun _ => PyVal.vnone)) ∧
    ((∃ v ∈ vals, ∃ q, v.bind to_numeric = some q) →
      (∀ v ∈ vals, ∀ q, v.bind to_numeric = some q → q.den = 1) →
      inferColumn vals = vals.map (fun v =>
        match v.bind to_numeric with
        | some q => PyVal.vint q.num
        | none => PyVal.vna)) ∧
    ((∃ v ∈ vals, ∃ q, v.bind to_numeric = some q ∧ q.den ≠ 1) →
      inferColumn vals = vals.map (fun v =>
        match v.bind to_numeric with
        | some q => PyVal.vfloat q
        | none => PyVal.vnan)) ∧
    ((∃ v ∈ vals, v ≠ none) →
      (∀ v ∈ vals, v.bind to_numeric = none) →
      inferColumn vals = vals.map (fun v =>
        match v with
        | none => PyVal.vnone
        | some s => if s = "None" then PyVal.vnone else PyVal.vstr s)) := by
  refine ⟨?_, ?_, ?_, ?_⟩
  · intro h
    unfold inferColumn
    rw [if_pos ?_]
    rw [List.all_eq_true]
    intro v hv
    rw [h v hv]
    rfl
  · rintro ⟨v, hv, q, hq⟩ hall
    have hnotall : ¬ (vals.all Option.isNone = true) := by
      rw [List.all_eq_true]
      intro hno
      have := hno v hv
      rcases v with _ | s
      · simp at hq
      · simp [Option.isNone] at this
    have hany : (vals.map (fun v => v.bind to_numeric)).any Option.isSome = true := by
      rw [List.any_eq_true]
      exact ⟨some q, List.mem_map.mpr ⟨v, hv, hq⟩, rfl⟩
    have hden : ((vals.map (fun v => v.bind to_numeric)).filterMap id).all
        (fun q => decide (q.den = 1)) = true := by
      rw [List.all_eq_true]
      intro x hx
      rw [List.mem_filterMap] at hx
      obtain ⟨o, ho, hid⟩ := hx
      rw [List.mem_map] at ho
      obtain ⟨w, hw, hwo⟩ := ho
      rw [decide_eq_true_iff]
      exact hall w hw x (by rw [hwo]; exact hid)
    unfold inferColumn
    rw [if_neg hnotall, if_pos (by rw [Bool.and_eq_true]; exact ⟨hany, hden⟩)]
    rw [List.map_map]
    apply List.map_congr_left
    intro a _
    cases h : a.bind to_numeric
    · simp [Function.comp, h]
    · simp [Function.comp, h]
  · rintro ⟨v, hv, q, hq, hd⟩
    have hnotall : ¬ (vals.all Option.isNone = true) := by
      rw [List.all_eq_true]
      intro hno
      have := hno v hv
      rcases v with _ | s
      · simp at hq
      · simp [Option.isNone] at this
    have hany : (vals.map (fun v => v.bind to_numeric)).any Option.isSome = true := by
      rw [List.any_eq_true]
      exact ⟨some q, List.mem_map.mpr ⟨v, hv, hq⟩, rfl⟩
    have hdenf : ¬ (((vals.map (fun v => v.bind to_numeric)).filterMap id).all
        (fun q => decide (q.den = 1)) = true) := by
      rw [List.all_eq_true]
      intro hall
      have hmem : q ∈ (vals.map (fun v => v.bind to_numeric)).filterMap id := by
        rw [List.mem_filterMap]
        exact ⟨some q, List.mem_map.mpr ⟨v, hv, hq⟩, rfl⟩
      have := hall q hmem
      rw [decide_eq_true_iff] at this
      exact hd this
    unfold inferColumn
    rw [if_neg hnotall, if_neg (by rw [Bool.and_eq_true]; rintro ⟨h1, h2⟩; exact hdenf h2),
      if_pos hany]
    rw [List.map_map]
    apply List.map_congr_left
    intro a _
    cases h : a.bind to_numeric
    · simp [Function.comp, h]
    · simp [Function.comp, h]
  · rintro ⟨v, hv, hvne⟩ hfail
    have hnotall : ¬ (vals.all Option.isNone = true) := by
      rw [List.all_eq_true]
      intro hno
      have := hno v hv
      rcases v with _ | s
      · exact hvne rfl
      · simp [Option.isNone] at this
    have hnoany : ¬ ((vals.map (fun v => v.bind to_numeric)).any Option.isSome = true) := by
      rw [List.any_eq_true]
      rintro ⟨x, hx, hxs⟩
      rw [List.mem_map] at hx
      obtain ⟨w, hw, hwx⟩ := hx
      rw [← hwx] at hxs
      rw [hfail w hw] at hxs
      simp at hxs
    unfold inferColumn
    rw [if_neg hnotall, if_neg (by rw [Bool.and_eq_true]; rintro ⟨h1, h2⟩; exact hnoany h1),
      if_neg hnoany]

/-- Witness for `claim_C1_inference`: the integer branch on the column
`["5", missing]` and the text branch on the column `["a", missing]`. -/
theorem claim_C1_inference_witness :
    inferColumn [some "5", none] = [some "5", none].map (fun v =>
      match v.bind to_numeric with
      | some q => PyVal.vint q.num
      | none => PyVal.vna) ∧
    inferColumn [some "a", none] = [some "a", none].map (fun v =>
      match v with
      | none => PyVal.vnone
      | some s => if s = "None" then PyVal.vnone else PyVal.vstr s) := by
  constructor
  · apply (claim_C1_inference [some "5", none]).2.1
    · exact ⟨some "5", by decide, 5, by decide⟩
    · intro v hv q hq
      fin_cases hv
      · have h5 : to_numeric "5" = some 5 := by decide
        have hq2 : to_numeric "5" = some q := hq
        rw [h5] at hq2
        injection hq2 with h
        rw [← h]
        decide
      · simp at hq
  · apply (claim_C1_inference [some "a", none]).2.2.2
    · exact ⟨some "a", by decide, by decide⟩
    · decide

/-- C8: when the eager read at construction fails because the tab is
empty or has no header row, the constructor does not propagate the
error: the accessor is created with an empty table as its data and a
null stored fingerprint. -/
theorem claim_C8_init_degrades (values : RawGrid)
    (h : values = [] ∨ values.headD [] = []) :
    init_tab (.ok values) = .ok ⟨[], none⟩ := by
  rcases h with h | h
  · subst h
    rfl
  · cases values with
    | nil => rfl
    | cons r t =>
      simp only [List.headD_cons] at h
      subst h
      rfl

/-- Witness for `claim_C8_init_degrades` on a grid whose only row is
empty (no header cells). -/
theorem claim_C8_init_degrades_witness :
    init_tab (.ok [[]]) = .ok ⟨[], none⟩ :=
  claim_C8_init_degrades [[]] (Or.inr rfl)

/-- Helper: two cells sanitise to the same value exactly when they are
equal or both missing. -/
theorem sanitizeCell_eq_iff (a b : PyVal) :
    sanitizeCell a = sanitizeCell b ↔ cellEquiv a b := by
  cases a <;> cases b <;> simp [sanitizeCell, pd_isna, cellEquiv]

/-- Helper: mapping a function over two lists gives equal results
exactly when the lists are pointwise related by equality under the
function. -/
theorem map_eq_map_iff_forall2 {α β : Type} (f : α → β) (l1 l2 : List α) :
    l1.map f = l2.map f ↔ List.Forall₂ (fun a b => f a = f b) l1 l2 := by
  induction l1 generalizing l2 with
  | nil => cases l2 <;> simp
  | cons a t ih =>
    cases l2 with
    | nil => simp
    | cons b t2 => simp [ih]

/-- C3 counterexample: the claimed missing-equivalence invariant fails
on the DataFrame branch of `_calculate_data_hash`.  The two frames
`[["x", None]]` and `[["x", NaN]]` are element-wise equal treating every
missing representation as equivalent (and are genuinely object-dtype, so
both take the `hash_object_array` path), yet their digests differ,
because that branch has no `sanitize` step and encodes the cells as
`str(val)`: `"None"` versus `"nan"`. -/
theorem claim_C3_counterexample :
    List.Forall₂ (List.Forall₂ cellEquiv)
      [[PyVal.vstr "x", PyVal.vnone]] [[PyVal.vstr "x", PyVal.vnan]] ∧
    calculate_data_hash_full
        (TabularData.df ⟨[ColLabel.name "A", ColLabel.name "B"],
          [[PyVal.vstr "x", PyVal.vnone]]⟩)
      ≠ calculate_data_hash_full
        (TabularData.df ⟨[ColLabel.name "A", ColLabel.name "B"],
          [[PyVal.vstr "x", PyVal.vnan]]⟩) := by
  constructor
  · exact List.Forall₂.cons
      (List.Forall₂.cons (Or.inr rfl)
        (List.Forall₂.cons (Or.inl ⟨rfl, rfl⟩) List.Forall₂.nil))
      List.Forall₂.nil
  · decide

/-- C3 (amended): the fingerprint is a deterministic function of the
data, and for the list representation (the json branch of
`_calculate_data_hash`, also taken by the record-list form) two tabular
values get the same fingerprint exactly when they are element-wise
equivalent, treating every representation of a missing cell (`None`,
`NaN`, `pd.NA`) as equal; consequently two such values that differ in
some cell get different fingerprints.  For the DataFrame representation
the missing-equivalence half of the original claim fails
(`claim_C3_counterexample`).  The digest is modelled at the level of the
md5 input (see `calculate_data_hash` and `calculate_data_hash_full`):
equality of the model digest corresponds to equality of the md5 input
bytes, and inequality to distinct md5 inputs, which collide only with
the negligible probability the claim's "overwhelming probability"
allows. -/
theorem claim_C3_fingerprint (g1 g2 : Grid) :
    calculate_data_hash_full (TabularData.listRep g1)
      = calculate_data_hash_full (TabularData.listRep g2) ↔
      List.Forall₂ (List.Forall₂ cellEquiv) g1 g2 := by
  unfold calculate_data_hash_full
  rw [show (HashDigest.ofList (calculate_data_hash g1)
      = HashDigest.ofList (calculate_data_hash g2))
    ↔ calculate_data_hash g1 = calculate_data_hash g2 from
    ⟨fun h => by injection h, fun h => by rw [h]⟩]
  unfold calculate_data_hash sanitize
  rw [map_eq_map_iff_forall2]
  constructor
  · intro h
    apply h.imp
    intro r1 r2 hr
    rw [map_eq_map_iff_forall2] at hr
    apply hr.imp
    intro a b hab
    exact (sanitizeCell_eq_iff a b).mp hab
  · intro h
    apply h.imp
    intro r1 r2 hr
    rw [map_eq_map_iff_forall2]
    apply hr.imp
    intro a b hab
    exact (sanitizeCell_eq_iff a b).mpr hab

/-- Helper: when no remote call failed, the calls actually made are
exactly the planned ones. -/
theorem runOps_calls_of_success (ops : List RemoteOp) (ok : RemoteOp → Bool)
    (h : (runOps ops ok).2 = none) : (runOps ops ok).1 = ops := by
  induction ops with
  | nil => rfl
  | cons op rest ih =>
    unfold runOps at h ⊢
    by_cases hok : ok op
    · simp only [hok, if_true] at h ⊢
      rw [ih h]
    · simp [hok] at h

/-- Helper: update-call count of a cons. -/
theorem countUpdates_cons (op : RemoteOp) (l : List RemoteOp) :
    countUpdates (op :: l) = (if isUpdateOp op then 1 else 0) + countUpdates l := by
  unfold countUpdates
  rw [List.filter_cons]
  by_cases h : isUpdateOp op
  · simp [h]
    omega
  · simp [h]

/-- Helper: a run attempts no more update calls than were planned. -/
theorem countUpdates_runOps_le (ops : List RemoteOp) (ok : RemoteOp → Bool) :
    countUpdates (runOps ops ok).1 ≤ countUpdates ops := by
  induction ops with
  | nil => simp [runOps]
  | cons op rest ih =>
    unfold runOps
    by_cases hok : ok op
    · simp only [hok, if_true]
      rw [countUpdates_cons, countUpdates_cons]
      omega
    · rw [if_neg hok, countUpdates_cons, countUpdates_cons]
      have h0 : countUpdates ([] : List RemoteOp) = 0 := rfl
      omega

/-- Helper: update-call count of an append. -/
theorem countUpdates_append (a b : List RemoteOp) :
    countUpdates (a ++ b) = countUpdates a + countUpdates b := by
  unfold countUpdates
  rw [List.filter_append, List.length_append]

/-- Helper: a write whose stored fingerprint matches the current data is
a complete no-op: no remote call, no error, state unchanged. -/
theorem write_data_skip (st : TabState) (ok : RemoteOp → Bool) (ov tab : Bool)
    (h : st.storedHash = some (calculate_data_hash st.data)) :
    write_data st ok ov tab = ⟨st, [], none⟩ := by
  unfold write_data
  rw [if_pos (by unfold hashGuard; exact decide_eq_true h)]

/-- Helper: on success `write_data` keeps the data and stores the digest
of the current data; on any error it leaves the state untouched. -/
theorem write_data_state_char (st : TabState) (ok : RemoteOp → Bool) (ov tab : Bool) :
    ((write_data st ok ov tab).err = none →
      (write_data st ok ov tab).state.data = st.data ∧
      (write_data st ok ov tab).state.storedHash = some (calculate_data_hash st.data)) ∧
    ((write_data st ok ov tab).err ≠ none → (write_data st ok ov tab).state = st) := by
  unfold write_data
  by_cases hg : hashGuard st = true
  · rw [if_pos hg]
    refine ⟨fun _ => ⟨rfl, ?_⟩, fun hne => rfl⟩
    exact of_decide_eq_true hg
  · rw [if_neg hg]
    rcases hdl : data_as_list st.data with e | values
    · exact ⟨fun hn => by simp at hn, fun _ => rfl⟩
    · dsimp only
      by_cases hh : (values.headD []).isEmpty = true
      · rw [if_pos hh]
        exact ⟨fun hn => by simp at hn, fun _ => rfl⟩
      · rw [if_neg hh]
        rcases hr : (runOps ((if ov then [RemoteOp.clear, RemoteOp.update none]
            else [RemoteOp.update (some ("A1:" ++ endCell (values.headD []).length values.length))])
            ++ (if tab then [RemoteOp.setFilter, RemoteOp.freeze, RemoteOp.format] else [])) ok).2
          with _ | e
        · simp [hr]
        · simp [hr]

/-- Helper: either `write_data` made no remote call (fingerprint match,
or a failure before the remote sequence), or it ran the planned call
sequence, which contains exactly one cell-writing `update` call, and
succeeded exactly when every planned call succeeded. -/
theorem write_data_calls_char (st : TabState) (ok : RemoteOp → Bool) (ov tab : Bool) :
    ((write_data st ok ov tab).calls = [] ∧
      (hashGuard st = true ∨ (write_data st ok ov tab).err ≠ none)) ∨
    (∃ ops, countUpdates ops = 1 ∧ (write_data st ok ov tab).calls = (runOps ops ok).1 ∧
      ((write_data st ok ov tab).err = none ↔ (runOps ops ok).2 = none)) := by
  unfold write_data
  by_cases hg : hashGuard st = true
  · rw [if_pos hg]
    exact Or.inl ⟨rfl, Or.inl hg⟩
  · rw [if_neg hg]
    rcases hdl : data_as_list st.data with e | values
    · exact Or.inl ⟨rfl, Or.inr (by simp)⟩
    · dsimp only
      by_cases hh : (values.headD []).isEmpty = true
      · rw [if_pos hh]
        exact Or.inl ⟨rfl, Or.inr (by simp)⟩
      · rw [if_neg hh]
        refine Or.inr ⟨(if ov then [RemoteOp.clear, RemoteOp.update none]
            else [RemoteOp.update (some ("A1:" ++ endCell (values.headD []).length values.length))])
            ++ (if tab then [RemoteOp.setFilter, RemoteOp.freeze, RemoteOp.format] else []), ?_, ?_, ?_⟩
        · rw [countUpdates_append]
          by_cases hov : ov = true
          · rw [if_pos hov]
            by_cases htab : tab = true
            · rw [if_pos htab]; rfl
            · rw [if_neg htab]; rfl
          · rw [if_neg hov]
            by_cases htab : tab = true
            · rw [if_pos htab]; rfl
            · rw [if_neg htab]; rfl
        · rcases hr : (runOps ((if ov then [RemoteOp.clear, RemoteOp.update none]
              else [RemoteOp.update (some ("A1:" ++ endCell (values.headD []).length values.length))])
              ++ (if tab then [RemoteOp.setFilter, RemoteOp.freeze, RemoteOp.format] else [])) ok).2
            with _ | e
          · simp [hr]
          · simp [hr]
        · rcases hr : (runOps ((if ov then [RemoteOp.clear, RemoteOp.update none]
              else [RemoteOp.update (some ("A1:" ++ endCell (values.headD []).length values.length))])
              ++ (if tab then [RemoteOp.setFilter, RemoteOp.freeze, RemoteOp.format] else [])) ok).2
            with _ | e
          · simp [hr]
          · simp [hr]

/-- C7: the stored fingerprint is recomputed and persisted only on a
successful write: if `write_data` raises at any step, the stored
fingerprint and the in-memory data are left unchanged; when every step
succeeds the stored fingerprint equals the fingerprint of the current
data, which itself is never modified by the write. -/
theorem claim_C7_hash_only_on_success (st : TabState) (ok : RemoteOp → Bool) (ov tab : Bool) :
    ((write_data st ok ov tab).err ≠ none → (write_data st ok ov tab).state = st) ∧
    ((write_data st ok ov tab).err = none →
      (write_data st ok ov tab).state.data = st.data ∧
      (write_data st ok ov tab).state.storedHash = some (calculate_data_hash st.data)) :=
  ⟨(write_data_state_char st ok ov tab).2, (write_data_state_char st ok ov tab).1⟩

/-- Witness for `claim_C7_hash_only_on_success`: a write whose `freeze`
call fails leaves the state unchanged, and a fully successful write
stores the digest of the written data. -/
theorem claim_C7_hash_only_on_success_witness :
    (write_data ⟨[[PyVal.vstr "A"]], none⟩ (fun op => decide (op ≠ RemoteOp.freeze)) true true).state
      = ⟨[[PyVal.vstr "A"]], none⟩ ∧
    (write_data ⟨[[PyVal.vstr "A"]], none⟩ (fun _ => true) false false).state.storedHash
      = some (calculate_data_hash [[PyVal.vstr "A"]]) := by
  constructor
  · exact (claim_C7_hash_only_on_success ⟨[[PyVal.vstr "A"]], none⟩
      (fun op => decide (op ≠ RemoteOp.freeze)) true true).1 (by decide)
  · exact ((claim_C7_hash_only_on_success ⟨[[PyVal.vstr "A"]], none⟩
      (fun _ => true) false false).2 (by decide)).2

/-- C2 counterexample: with data unchanged since the last
read/write (stored fingerprint equal to the current one), two
consecutive `write_data` calls both succeed but perform zero remote
write calls in total, refuting the claimed "exactly one remote write". -/
theorem claim_C2_counterexample :
    (write_data ⟨[[PyVal.vstr "A"]], some (calculate_data_hash [[PyVal.vstr "A"]])⟩
        (fun _ => true) false false).err = none ∧
    (write_data (write_data ⟨[[PyVal.vstr "A"]], some (calculate_data_hash [[PyVal.vstr "A"]])⟩
        (fun _ => true) false false).state (fun _ => true) false false).err = none ∧
    countUpdates (write_data ⟨[[PyVal.vstr "A"]], some (calculate_data_hash [[PyVal.vstr "A"]])⟩
        (fun _ => true) false false).calls +
      countUpdates (write_data
        (write_data ⟨[[PyVal.vstr "A"]], some (calculate_data_hash [[PyVal.vstr "A"]])⟩
          (fun _ => true) false false).state (fun _ => true) false false).calls = 0 := by
  decide

/-- C2 (amended): a `write_data` call on data whose fingerprint equals
the stored fingerprint is a no-op: no remote call, no error, state
unchanged.  Consequently two consecutive calls with unchanged data
perform at most one remote write: the second call is always a no-op once
the first succeeded, every call makes at most one cell-writing `update`
call, and exactly one remote write happens when the fingerprint differed
from the stored one before the first call and that call succeeded (the
original "exactly one" is refuted by `claim_C2_counterexample` when the
data was already in sync). -/
theorem claim_C2_noop_write (st : TabState) (ok : RemoteOp → Bool) (ov tab : Bool) :
    (st.storedHash = some (calculate_data_hash st.data) →
      write_data st ok ov tab = ⟨st, [], none⟩) ∧
    ((write_data st ok ov tab).err = none →
      write_data (write_data st ok ov tab).state ok ov tab
        = ⟨(write_data st ok ov tab).state, [], none⟩) ∧
    countUpdates (write_data st ok ov tab).calls ≤ 1 ∧
    (st.storedHash ≠ some (calculate_data_hash st.data) →
      (write_data st ok ov tab).err = none →
      countUpdates (write_data st ok ov tab).calls = 1) := by
  refine ⟨fun h => write_data_skip st ok ov tab h, fun herr => ?_, ?_, fun hne herr => ?_⟩
  · obtain ⟨hd, hh⟩ := (write_data_state_char st ok ov tab).1 herr
    apply write_data_skip
    rw [hh, hd]
  · rcases write_data_calls_char st ok ov tab with ⟨hc, _⟩ | ⟨ops, h1, h2, h3⟩
    · rw [hc]
      exact Nat.zero_le 1
    · rw [h2]
      exact le_trans (countUpdates_runOps_le ops ok) (le_of_eq h1)
  · rcases write_data_calls_char st ok ov tab with ⟨hc, hor⟩ | ⟨ops, h1, h2, h3⟩
    · rcases hor with hg | he
      · exact absurd (of_decide_eq_true hg) hne
      · exact absurd herr he
    · rw [h2, runOps_calls_of_success ops ok (h3.mp herr)]
      exact h1

/-- Witness for `claim_C2_noop_write`: a fingerprint-matching state is
skipped entirely, and a first write on out-of-sync data performs exactly
one remote update call. -/
theorem claim_C2_noop_write_witness :
    write_data ⟨[[PyVal.vstr "A"]], some (calculate_data_hash [[PyVal.vstr "A"]])⟩
        (fun _ => true) false false
      = ⟨⟨[[PyVal.vstr "A"]], some (calculate_data_hash [[PyVal.vstr "A"]])⟩, [], none⟩ ∧
    countUpdates (write_data ⟨[[PyVal.vstr "A"]], none⟩ (fun _ => true) false false).calls = 1 := by
  constructor
  · exact (claim_C2_noop_write ⟨[[PyVal.vstr "A"]], some (calculate_data_hash [[PyVal.vstr "A"]])⟩
      (fun _ => true) false false).1 rfl
  · exact (claim_C2_noop_write ⟨[[PyVal.vstr "A"]], none⟩
      (fun _ => true) false false).2.2.2 (by decide) (by decide)

/-- Helper: a fully literal token list matches at the start of a text
exactly when its characters are a prefix of the text. -/
theorem matchHere_lit (p s : List Char) :
    matchHere (p.map ReTok.lit) s = true ↔ p <+: s := by
  induction p generalizing s with
  | nil =>
    simp [matchHere, List.nil_prefix]
  | cons c t ih =>
    cases s with
    | nil =>
      simp [matchHere, List.prefix_nil]
    | cons d ds =>
      simp [matchHere, tokMatches, ih, List.cons_prefix_cons]

/-- Helper: `re.search` with a fully literal pattern succeeds exactly
when the pattern's characters occur contiguously inside the text. -/
theorem reSearch_lit (p s : List Char) :
    reSearch (p.map ReTok.lit) s = true ↔ p <:+: s := by
  induction s with
  | nil =>
    rw [reSearch, matchHere_lit, List.infix_nil, List.prefix_nil]
  | cons c cs ih =>
    rw [reSearch, Bool.or_eq_true, matchHere_lit, ih, List.infix_cons_iff]

/-- Helper: compiling a pattern without metacharacters yields only
literal tokens. -/
theorem compile_literal (p : String) (h : literalPattern p) :
    compilePattern p = p.toList.map ReTok.lit := by
  unfold compilePattern
  apply List.map_congr_left
  intro c hc
  have hm : c ∉ reMetachars := h c hc
  have hcd : ¬ (c = '.') := by
    intro he
    exact hm (by rw [he]; decide)
  rw [if_neg hcd]

/-- Helper: for a literal pattern, `str.contains` on a cell is substring
containment on a string cell and `False` on a missing or non-string
cell. -/
theorem str_contains_literal (pattern : String) (h : literalPattern pattern) (cell : PyVal) :
    str_contains pattern cell = (match cell with
      | PyVal.vstr s => decide (pattern.toList <:+: s.toList)
      | _ => false) := by
  cases cell <;> try rfl
  rename_i s
  show reSearch (compilePattern pattern) s.toList = decide (pattern.toList <:+: s.toList)
  rw [compile_literal pattern h]
  rw [Bool.eq_iff_iff, decide_eq_true_iff]
  exact reSearch_lit pattern.toList s.toList

/-- C4 (amended): `filter_rows_by_column` raises `ValueError` when the
column argument is empty, when the pattern argument is empty, or when
the column is absent; when the column is present, every value in it is a
string or missing, and the pattern contains no regular-expression
metacharacters, it returns exactly the rows whose value in the column
contains the pattern as a substring, with missing values never matching.
The original claim's unconditional substring reading fails because
`str.contains` treats the pattern as a regular expression
(`claim_C4_counterexample`). -/
theorem claim_C4_filter (df : Df) (column pattern : String) (j : Nat) :
    (column = "" → filter_rows_by_column df column pattern = .error .valueError) ∧
    (column ≠ "" → pattern = "" →
      filter_rows_by_column df column pattern = .error .valueError) ∧
    (column ≠ "" → pattern ≠ "" → colIdx df.cols (ColLabel.name column) = none →
      filter_rows_by_column df column pattern = .error .valueError) ∧
    (column ≠ "" → pattern ≠ "" → colIdx df.cols (ColLabel.name column) = some j →
      (∀ r ∈ df.rows, isStrCell (r.getD j PyVal.vnone) = true ∨
        pd_isna (r.getD j PyVal.vnone) = true) →
      literalPattern pattern →
      filter_rows_by_column df column pattern
        = .ok (df.rows.filter (fun r =>
            match r.getD j PyVal.vnone with
            | PyVal.vstr s => decide (pattern.toList <:+: s.toList)
            | _ => false))) := by
  refine ⟨fun hc => ?_, fun hc hp => ?_, fun hc hp hnone => ?_, fun hc hp hj hstr hlit => ?_⟩
  · unfold filter_rows_by_column
    rw [if_pos hc]
  · unfold filter_rows_by_column
    rw [if_neg hc, if_pos hp]
  · unfold filter_rows_by_column
    rw [if_neg hc, if_neg hp, hnone]
  · unfold filter_rows_by_column
    rw [if_neg hc, if_neg hp, hj]
    dsimp only
    have hcond : ((df.rows.map (fun r => r.getD j PyVal.vnone)).any (fun c => !pd_isna c) &&
        (df.rows.map (fun r => r.getD j PyVal.vnone)).all
          (fun c => pd_isna c || !isStrCell c)) = false := by
      cases hany : (df.rows.map (fun r => r.getD j PyVal.vnone)).any (fun c => !pd_isna c)
      · rw [Bool.false_and]
      · rw [Bool.true_and]
        rw [List.any_eq_true] at hany
        obtain ⟨c, hcm, hcp⟩ := hany
        rw [List.mem_map] at hcm
        obtain ⟨r, hr, hrc⟩ := hcm
        have hna : pd_isna c = false := by
          cases hpd : pd_isna c
          · rfl
          · rw [hpd] at hcp; simp at hcp
        have hs : isStrCell c = true := by
          rcases hstr r hr with hx | hx
          · rw [hrc] at hx; exact hx
          · rw [hrc] at hx; rw [hx] at hna; simp at hna
        cases hall : (df.rows.map (fun r => r.getD j PyVal.vnone)).all
            (fun c => pd_isna c || !isStrCell c)
        · rfl
        · rw [List.all_eq_true] at hall
          have := hall c (List.mem_map.mpr ⟨r, hr, hrc⟩)
          rw [hna, hs] at this
          simp at this
    rw [if_neg (by rw [hcond]; simp)]
    congr 1
    apply List.filter_congr
    intro r hr
    rw [str_contains_literal pattern hlit]

/-- C4 counterexample: with the single-row column value `"ab"` and the
pattern `"."`, the code returns the row (the pattern is a regular
expression matching any character) although `"."` is not a substring of
`"ab"`. -/
theorem claim_C4_counterexample :
    filter_rows_by_column ⟨[ColLabel.name "Name"], [[PyVal.vstr "ab"]]⟩ "Name" "."
      = .ok [[PyVal.vstr "ab"]] ∧
    ¬ (".".toList <:+: "ab".toList) := by
  exact ⟨by decide, by decide⟩

/-- Witness for `claim_C4_filter`: the spec's own example, filtering the
Name column by `"Al"` over Alice, Bob, Alex, Charlie returns exactly the
Alice and Alex rows. -/
theorem claim_C4_filter_witness :
    filter_rows_by_column ⟨[ColLabel.name "Name"],
        [[PyVal.vstr "Alice"], [PyVal.vstr "Bob"], [PyVal.vstr "Alex"], [PyVal.vstr "Charlie"]]⟩
        "Name" "Al"
      = .ok [[PyVal.vstr "Alice"], [PyVal.vstr "Alex"]] := by
  have h := (claim_C4_filter ⟨[ColLabel.name "Name"],
      [[PyVal.vstr "Alice"], [PyVal.vstr "Bob"], [PyVal.vstr "Alex"], [PyVal.vstr "Charlie"]]⟩
      "Name" "Al" 0).2.2.2 (by decide) (by decide) (by decide) (by decide)
      (by unfold literalPattern; decide)
  rw [h]
  decide

/-- Helper: a found column index is in bounds and addresses the label
searched for. -/
theorem colIdx_some_char (cols : List ColLabel) (c : ColLabel) (j : Nat)
    (h : colIdx cols c = some j) :
    j < cols.length ∧ cols.getD j (ColLabel.pos 0) = c := by
  unfold colIdx at h
  rw [List.findIdx?_eq_some_iff_findIdx_eq] at h
  obtain ⟨hlt, heq⟩ := h
  subst heq
  refine ⟨hlt, ?_⟩
  rw [List.getD_eq_getElem _ _ hlt]
  exact of_decide_eq_true (@List.findIdx_getElem _ _ cols hlt)

/-- Helper: a label with a found index is a member of the label list. -/
theorem colIdx_some_mem (cols : List ColLabel) (c : ColLabel) (j : Nat)
    (h : colIdx cols c = some j) : c ∈ cols := by
  obtain ⟨hlt, heq⟩ := colIdx_some_char cols c j h
  rw [List.getD_eq_getElem _ _ hlt] at heq
  rw [← heq]
  exact List.getElem_mem hlt

/-- Helper: `findIdx?` returns the first position satisfying the
predicate. -/
theorem findIdx?_first {α : Type} (p : α → Bool) (l : List α) (i : Nat) (d : α)
    (hi : i < l.length) (hp : p (l.getD i d) = true)
    (hmin : ∀ k, k < i → p (l.getD k d) = false) :
    l.findIdx? p = some i := by
  rw [List.findIdx?_eq_some_iff_findIdx_eq]
  refine ⟨hi, ?_⟩
  have h1 : ¬ (i < l.findIdx p) := by
    intro hlt
    have hfalse := @List.not_of_lt_findIdx _ p l i hlt
    rw [List.getD_eq_getElem _ _ hi] at hp
    rw [hp] at hfalse
    exact Bool.noConfusion hfalse
  have h2 : ¬ (l.findIdx p < i) := by
    intro hlt
    have hflt : l.findIdx p < l.length := Nat.lt_trans hlt hi
    have htrue := @List.findIdx_getElem _ p l hflt
    have hfalse := hmin _ hlt
    rw [List.getD_eq_getElem _ _ hflt] at hfalse
    rw [htrue] at hfalse
    exact Bool.noConfusion hfalse
  omega

/-- Helper: one step of the update fold. -/
theorem apply_updates_cons (cols : List ColLabel) (row : List PyVal)
    (u : String × PyVal) (rest : List (String × PyVal)) :
    apply_updates cols row (u :: rest)
      = apply_updates cols (match colIdx cols (ColLabel.name u.1) with
          | some j => row.set j u.2
          | none => row) rest := rfl

/-- Helper: applying updates never changes the row width. -/
theorem apply_updates_length (cols : List ColLabel) (row : List PyVal)
    (updates : List (String × PyVal)) :
    (apply_updates cols row updates).length = row.length := by
  induction updates generalizing row with
  | nil => rfl
  | cons u rest ih =>
    rw [apply_updates_cons]
    cases hc : colIdx cols (ColLabel.name u.1) with
    | none =>
      simp only [hc]
      exact ih row
    | some k =>
      simp only [hc]
      rw [ih (row.set k u.2), List.length_set]

/-- Helper: reading the cell just written. -/
theorem getD_set_self {α : Type} (l : List α) (k : Nat) (v d : α) (h : k < l.length) :
    (l.set k v).getD k d = v := by
  rw [List.getD_eq_getElem _ _ (by rw [List.length_set]; exact h)]
  exact List.getElem_set_self _

/-- Helper: writing one cell leaves the others unchanged. -/
theorem getD_set_ne {α : Type} (l : List α) (k m : Nat) (v d : α) (hne : k ≠ m) :
    (l.set k v).getD m d = l.getD m d := by
  by_cases hm : m < l.length
  · rw [List.getD_eq_getElem _ _ (by rw [List.length_set]; exact hm),
      List.getD_eq_getElem _ _ hm]
    exact List.getElem_set_ne hne _
  · rw [List.getD_eq_default _ _ (by rw [List.length_set]; omega), List.getD_eq_default _ _ (by omega)]

/-- Helper: a cell under no update column is unchanged by the update
fold. -/
theorem apply_updates_miss (cols : List ColLabel) (row : List PyVal)
    (updates : List (String × PyVal)) (m : Nat)
    (h : ∀ u ∈ updates, colIdx cols (ColLabel.name u.1) ≠ some m) :
    (apply_updates cols row updates).getD m PyVal.vnone = row.getD m PyVal.vnone := by
  induction updates generalizing row with
  | nil => rfl
  | cons u rest ih =>
    rw [apply_updates_cons]
    cases hc : colIdx cols (ColLabel.name u.1) with
    | none =>
      simp only [hc]
      exact ih row (fun w hw => h w (List.mem_cons_of_mem u hw))
    | some k =>
      simp only [hc]
      rw [ih (row.set k u.2) (fun w hw => h w (List.mem_cons_of_mem u hw))]
      apply getD_set_ne
      intro hkm
      exact h u (List.mem_cons_self u rest) (by rw [hc, hkm])

/-- Helper: a cell under an update column receives the update value
(keys are unique, as in a Python dict). -/
theorem apply_updates_hit (cols : List ColLabel) (row : List PyVal)
    (updates : List (String × PyVal)) (c : String) (v : PyVal) (m : Nat)
    (hnodup : (updates.map Prod.fst).Nodup)
    (hg : dictGet updates c = some v)
    (hcm : colIdx cols (ColLabel.name c) = some m)
    (hm : m < row.length) :
    (apply_updates cols row updates).getD m PyVal.vnone = v := by
  induction updates generalizing row with
  | nil => exact absurd hg (by unfold dictGet; simp)
  | cons u rest ih =>
    rw [apply_updates_cons]
    by_cases hc1 : u.1 = c
    · have hv : u.2 = v := by
        unfold dictGet at hg
        rw [List.find?_cons] at hg
        rw [show (decide (u.1 = c)) = true from decide_eq_true hc1] at hg
        simp at hg
        exact hg
      have hrest_ne : ∀ w ∈ rest, w.1 ≠ c := by
        intro w hw hwc
        rw [List.map_cons] at hnodup
        apply (List.nodup_cons.mp hnodup).1
        rw [hc1]
        exact List.mem_map.mpr ⟨w, hw, hwc⟩
      have hmiss : ∀ w ∈ rest, colIdx cols (ColLabel.name w.1) ≠ some m := by
        intro w hw hcw
        have h1 := (colIdx_some_char cols _ _ hcw).2
        have h2 := (colIdx_some_char cols _ _ hcm).2
        rw [h2] at h1
        injection h1 with h1
        exact hrest_ne w hw h1.symm
      have hstep : colIdx cols (ColLabel.name u.1) = some m := by rw [hc1]; exact hcm
      simp only [hstep]
      rw [apply_updates_miss cols _ rest m hmiss]
      rw [hv]
      exact getD_set_self row m v PyVal.vnone hm
    · have hg2 : dictGet rest c = some v := by
        unfold dictGet at hg ⊢
        rw [List.find?_cons] at hg
        rw [show (decide (u.1 = c)) = false from decide_eq_false hc1] at hg
        exact hg
      have hnodup2 : (rest.map Prod.fst).Nodup := by
        rw [List.map_cons] at hnodup
        exact hnodup.of_cons
      cases hc : colIdx cols (ColLabel.name u.1) with
      | none =>
        simp only [hc]
        exact ih row hnodup2 hg2 hm
      | some k =>
        simp only [hc]
        exact ih (row.set k u.2) hnodup2 hg2 (by rw [List.length_set]; exact hm)

/-- Helper: ensuring a column that already exists changes nothing. -/
theorem ensure_col_of_mem (df : Df) (c : ColLabel) (h : c ∈ df.cols) :
    ensure_col df c = df := by
  unfold ensure_col
  rw [if_pos ((List.elem_iff).mpr h)]

/-- Helper: ensuring an absent column appends it, null-filled. -/
theorem ensure_col_not_mem (df : Df) (c : ColLabel) (h : c ∉ df.cols) :
    ensure_col df c = ⟨df.cols ++ [c], df.rows.map (fun r => r ++ [PyVal.vnone])⟩ := by
  unfold ensure_col
  rw [if_neg (fun hc => h ((List.elem_iff).mp hc))]

/-- Helper: ensuring columns that all exist changes nothing. -/
theorem ensure_fold_id (df : Df) (updates : List (String × PyVal))
    (h : ∀ u ∈ updates, ColLabel.name u.1 ∈ df.cols) :
    updates.foldl (fun d u => ensure_col d (ColLabel.name u.1)) df = df := by
  induction updates with
  | nil => rfl
  | cons u rest ih =>
    rw [List.foldl_cons, ensure_col_of_mem df _ (h u (List.mem_cons_self u rest))]
    exact ih (fun w hw => h w (List.mem_cons_of_mem u hw))

/-- Helper: ensuring a batch of columns appends some (possibly empty)
list of new labels and pads every row with that many nulls. -/
theorem ensure_fold_char (updates : List (String × PyVal)) (df : Df) :
    ∃ ecols : List ColLabel,
      (updates.foldl (fun d u => ensure_col d (ColLabel.name u.1)) df).cols
        = df.cols ++ ecols ∧
      (updates.foldl (fun d u => ensure_col d (ColLabel.name u.1)) df).rows
        = df.rows.map (fun r => r ++ List.replicate ecols.length PyVal.vnone) := by
  induction updates generalizing df with
  | nil =>
    refine ⟨[], by simp, ?_⟩
    simp
  | cons u rest ih =>
    rw [List.foldl_cons]
    by_cases hmem : ColLabel.name u.1 ∈ df.cols
    · rw [ensure_col_of_mem df _ hmem]
      exact ih df
    · rw [ensure_col_not_mem df _ hmem]
      obtain ⟨ecols, hcols, hrows⟩ := ih ⟨df.cols ++ [ColLabel.name u.1],
        df.rows.map (fun r => r ++ [PyVal.vnone])⟩
      refine ⟨ColLabel.name u.1 :: ecols, ?_, ?_⟩
      · rw [hcols]
        simp
      · rw [hrows]
        simp only [List.map_map]
        apply List.map_congr_left
        intro r hr
        simp [List.replicate_succ]

/-- Helper: every cell of the all-null template row is null. -/
theorem nulls_getD (cols : List ColLabel) (m : Nat) :
    (cols.map (fun _ => PyVal.vnone)).getD m PyVal.vnone = PyVal.vnone := by
  by_cases h : m < cols.length
  · rw [List.getD_eq_getElem _ _ (by rw [List.length_map]; exact h)]
    rw [List.getElem_map]
  · rw [List.getD_eq_default _ _ (by rw [List.length_map]; omega)]

/-- Helper: lookup in a one-entry mapping. -/
theorem dictGet_single (c : String) (v : PyVal) :
    dictGet [(c, v)] c = some v := by
  unfold dictGet
  rw [List.find?_cons]
  rw [show (decide ((c, v).1 = c)) = true from decide_eq_true rfl]
  rfl

/-- C5: for a table already carrying the match column (at index `j`) and
all update columns, with a non-empty match column name and a non-empty
update mapping, `update_row_by_column_pattern` finds the first row whose
match-column cell compares `==` to the value: if such a row exists, it
applies the updates to exactly that row (cells under update columns get
the update values, all its other cells and all other rows, including
later matches, are unchanged); if no row matches, it appends exactly one
new row that is null in every column except that the match column holds
the value (unless overridden by an update) and each update column holds
its update value. -/
theorem claim_C5_upsert (df : Df) (column : String) (value : PyVal)
    (updates : List (String × PyVal)) (j : Nat)
    (hcol : column ≠ "") (hupd : updates ≠ [])
    (hkeys : (updates.map Prod.fst).Nodup)
    (hj : colIdx df.cols (ColLabel.name column) = some j)
    (hhas : ∀ u ∈ updates, ColLabel.name u.1 ∈ df.cols)
    (hrect : ∀ r ∈ df.rows, r.length = df.cols.length) :
    (∀ i, i < df.rows.length →
      pyEq ((df.rows.getD i []).getD j PyVal.vnone) value = true →
      (∀ k, k < i → pyEq ((df.rows.getD k []).getD j PyVal.vnone) value = false) →
      ∃ res, update_row_by_column_pattern df column value updates = .ok res ∧
        res.cols = df.cols ∧
        res.rows.length = df.rows.length ∧
        (∀ k, k ≠ i → res.rows.getD k [] = df.rows.getD k []) ∧
        (∀ c v m, dictGet updates c = some v →
          colIdx df.cols (ColLabel.name c) = some m →
          (res.rows.getD i []).getD m PyVal.vnone = v) ∧
        (∀ m, (∀ u ∈ updates, colIdx df.cols (ColLabel.name u.1) ≠ some m) →
          (res.rows.getD i []).getD m PyVal.vnone
            = (df.rows.getD i []).getD m PyVal.vnone)) ∧
    ((∀ r ∈ df.rows, pyEq (r.getD j PyVal.vnone) value = false) →
      ∃ res nr, update_row_by_column_pattern df column value updates = .ok res ∧
        res.cols = df.cols ∧
        res.rows = df.rows ++ [nr] ∧
        nr.length = df.cols.length ∧
        (∀ c v m, dictGet updates c = some v →
          colIdx df.cols (ColLabel.name c) = some m →
          nr.getD m PyVal.vnone = v) ∧
        ((∀ u ∈ updates, u.1 ≠ column) → nr.getD j PyVal.vnone = value) ∧
        (∀ m, m ≠ j → (∀ u ∈ updates, colIdx df.cols (ColLabel.name u.1) ≠ some m) →
          nr.getD m PyVal.vnone = PyVal.vnone)) := by
  have hjlen : j < df.cols.length := (colIdx_some_char df.cols _ j hj).1
  have e1 : ensure_col df (ColLabel.name column) = df :=
    ensure_col_of_mem df _ (colIdx_some_mem df.cols _ j hj)
  have hmain : update_row_by_column_pattern df column value updates
      = match df.rows.findIdx? (fun r => pyEq (r.getD j PyVal.vnone) value) with
        | some i => .ok ⟨df.cols,
            df.rows.set i (apply_updates df.cols (df.rows.getD i []) updates)⟩
        | none => .ok ⟨df.cols, df.rows ++ [new_row df.cols column value updates]⟩ := by
    unfold update_row_by_column_pattern
    rw [if_neg hcol, if_neg (by rw [List.isEmpty_iff]; exact hupd)]
    dsimp only
    rw [e1, ensure_fold_id df updates hhas, hj]
    rfl
  constructor
  · intro i hi hpi hmin
    have hfind : df.rows.findIdx? (fun r => pyEq (r.getD j PyVal.vnone) value) = some i :=
      findIdx?_first _ df.rows i [] hi hpi hmin
    have hrowlen : (df.rows.getD i []).length = df.cols.length := by
      apply hrect
      rw [List.getD_eq_getElem _ _ hi]
      exact List.getElem_mem hi
    refine ⟨⟨df.cols, df.rows.set i (apply_updates df.cols (df.rows.getD i []) updates)⟩,
      by rw [hmain, hfind], rfl, List.length_set df.rows i _, ?_, ?_, ?_⟩
    · intro k hk
      exact getD_set_ne df.rows i k _ [] (fun he => hk he.symm)
    · intro c v m hg hcm
      rw [getD_set_self df.rows i _ [] hi]
      exact apply_updates_hit df.cols _ updates c v m hkeys hg hcm
        (by rw [hrowlen]; exact (colIdx_some_char df.cols _ m hcm).1)
    · intro m hm
      rw [getD_set_self df.rows i _ [] hi]
      exact apply_updates_miss df.cols _ updates m hm
  · intro hno
    have hfind : df.rows.findIdx? (fun r => pyEq (r.getD j PyVal.vnone) value) = none :=
      List.findIdx?_eq_none_iff.mpr hno
    have hinlen : (apply_updates df.cols (df.cols.map (fun _ => PyVal.vnone))
        [(column, value)]).length = df.cols.length := by
      rw [apply_updates_length, List.length_map]
    refine ⟨⟨df.cols, df.rows ++ [new_row df.cols column value updates]⟩,
      new_row df.cols column value updates,
      by rw [hmain, hfind], rfl, rfl, ?_, ?_, ?_, ?_⟩
    · unfold new_row
      rw [apply_updates_length, hinlen]
    · intro c v m hg hcm
      unfold new_row
      exact apply_updates_hit df.cols _ updates c v m hkeys hg hcm
        (by rw [hinlen]; exact (colIdx_some_char df.cols _ m hcm).1)
    · intro hne
      have hmiss : ∀ u ∈ updates, colIdx df.cols (ColLabel.name u.1) ≠ some j := by
        intro u hu hcu
        have h1 := (colIdx_some_char df.cols _ _ hcu).2
        have h2 := (colIdx_some_char df.cols _ _ hj).2
        rw [h2] at h1
        injection h1 with h1
        exact hne u hu h1.symm
      unfold new_row
      rw [apply_updates_miss df.cols _ updates j hmiss]
      exact apply_updates_hit df.cols _ [(column, value)] column value j (by simp)
        (dictGet_single column value) hj (by rw [List.length_map]; exact hjlen)
    · intro m hmj hmiss
      unfold new_row
      rw [apply_updates_miss df.cols _ updates m hmiss]
      rw [apply_updates_miss df.cols _ [(column, value)] m ?_]
      · exact nulls_getD df.cols m
      · intro u hu hcu
        rw [List.mem_singleton] at hu
        rw [hu] at hcu
        rw [hj] at hcu
        injection hcu with hcu
        exact hmj hcu.symm

/-- Helper: extensionality for the DataFrame model. -/
theorem Df_ext (a b : Df) (h1 : a.cols = b.cols) (h2 : a.rows = b.rows) : a = b := by
  cases a
  cases b
  cases h1
  cases h2
  rfl

/-- Helper: every member is bounded by the folded maximum. -/
theorem le_foldr_max (l : List Nat) (x : Nat) (h : x ∈ l) : x ≤ l.foldr max 0 := by
  induction l with
  | nil => cases h
  | cons a t ih =>
    rw [List.foldr_cons]
    rcases List.mem_cons.mp h with h | h
    · rw [h]
      exact Nat.le_max_left _ _
    · exact Nat.le_trans (ih h) (Nat.le_max_right _ _)

/-- Helper: reading a row of a column-extended table. -/
theorem getD_map_append (l : List (List PyVal)) (t : List PyVal) (i : Nat) (h : i < l.length) :
    (l.map (fun r => r ++ t)).getD i [] = l.getD i [] ++ t := by
  rw [List.getD_eq_getElem _ _ (by rw [List.length_map]; exact h), List.getElem_map,
    List.getD_eq_getElem _ _ h]

/-- C9: when the data shape is row-list, `_data_as_dataframe` builds a
DataFrame with positional integer column labels (so a string-named match
column is never present) and with the header row as an ordinary data row
(the row count equals the raw list length).  `update_row_by_column_pattern`
then creates the match column fresh (all null), no existing row compares
equal to the match value, and the operation always appends exactly one
new row: the result has one more row, and every original row, the header
row included, is preserved up to null padding. -/
theorem claim_C9_list_upsert (d : Grid) (s : String) (value : PyVal)
    (updates : List (String × PyVal)) (hs : s ≠ "") (hupd : updates ≠ []) :
    ColLabel.name s ∉ (list_to_df d).cols ∧
    (list_to_df d).rows.length = d.length ∧
    ∃ res, update_row_by_column_pattern (list_to_df d) s value updates = .ok res ∧
      res.rows.length = d.length + 1 ∧
      ∀ i, i < d.length → ∃ ext : List PyVal,
        (∀ x ∈ ext, x = PyVal.vnone) ∧
        res.rows.getD i [] = (list_to_df d).rows.getD i [] ++ ext := by
  have hnotmem : ColLabel.name s ∉ (list_to_df d).cols := by
    intro hmem
    unfold list_to_df at hmem
    rw [List.mem_map] at hmem
    obtain ⟨k, _, hk⟩ := hmem
    exact ColLabel.noConfusion hk
  have hlen0 : (list_to_df d).rows.length = d.length := by
    unfold list_to_df
    simp
  have hcolslen : (list_to_df d).cols.length = (d.map List.length).foldr max 0 := by
    unfold list_to_df
    simp
  have hrowlen : ∀ r ∈ (list_to_df d).rows, r.length = (d.map List.length).foldr max 0 := by
    intro r hr
    unfold list_to_df at hr
    simp only [List.mem_map] at hr
    obtain ⟨r0, hr0, hpad⟩ := hr
    rw [← hpad, List.length_append, List.length_replicate]
    have hle : r0.length ≤ (d.map List.length).foldr max 0 :=
      le_foldr_max _ _ (List.mem_map.mpr ⟨r0, hr0, rfl⟩)
    omega
  have e1 : ensure_col (list_to_df d) (ColLabel.name s)
      = ⟨(list_to_df d).cols ++ [ColLabel.name s],
         (list_to_df d).rows.map (fun r => r ++ [PyVal.vnone])⟩ :=
    ensure_col_not_mem _ _ hnotmem
  obtain ⟨ecols, hc2, hr2⟩ := ensure_fold_char updates
    ⟨(list_to_df d).cols ++ [ColLabel.name s],
     (list_to_df d).rows.map (fun r => r ++ [PyVal.vnone])⟩
  have hdf2 : updates.foldl (fun dd u => ensure_col dd (ColLabel.name u.1))
      ⟨(list_to_df d).cols ++ [ColLabel.name s],
       (list_to_df d).rows.map (fun r => r ++ [PyVal.vnone])⟩
      = ⟨((list_to_df d).cols ++ [ColLabel.name s]) ++ ecols,
         ((list_to_df d).rows.map (fun r => r ++ [PyVal.vnone])).map
           (fun r => r ++ List.replicate ecols.length PyVal.vnone)⟩ :=
    Df_ext _ _ hc2 hr2
  have hj2 : colIdx (((list_to_df d).cols ++ [ColLabel.name s]) ++ ecols) (ColLabel.name s)
      = some (list_to_df d).cols.length := by
    apply findIdx?_first _ _ _ (ColLabel.pos 0)
    · rw [List.length_append, List.length_append, List.length_singleton]
      omega
    · have hb1 : (list_to_df d).cols.length < ((list_to_df d).cols ++ [ColLabel.name s]).length := by
        rw [List.length_append, List.length_singleton]
        omega
      have hb2 : (list_to_df d).cols.length
          < (((list_to_df d).cols ++ [ColLabel.name s]) ++ ecols).length := by
        rw [List.length_append]
        omega
      rw [List.getD_eq_getElem _ _ hb2]
      rw [List.getElem_append_left hb1]
      rw [List.getElem_append_right (Nat.le_refl _)]
      simp
    · intro k hk
      have hb1 : k < ((list_to_df d).cols ++ [ColLabel.name s]).length := by
        rw [List.length_append, List.length_singleton]
        omega
      have hb2 : k < (((list_to_df d).cols ++ [ColLabel.name s]) ++ ecols).length := by
        rw [List.length_append]
        omega
      rw [List.getD_eq_getElem _ _ hb2]
      rw [List.getElem_append_left hb1, List.getElem_append_left hk]
      apply decide_eq_false
      intro heq
      apply hnotmem
      rw [← heq]
      exact List.getElem_mem hk
  have hpred : ∀ r ∈ ((list_to_df d).rows.map (fun r => r ++ [PyVal.vnone])).map
      (fun r => r ++ List.replicate ecols.length PyVal.vnone),
      pyEq (r.getD (list_to_df d).cols.length PyVal.vnone) value = false := by
    intro r hr
    rw [List.mem_map] at hr
    obtain ⟨w, hw, hwr⟩ := hr
    rw [List.mem_map] at hw
    obtain ⟨w0, hw0, hww⟩ := hw
    have hw0len : w0.length = (d.map List.length).foldr max 0 := hrowlen w0 hw0
    have hcell : r.getD (list_to_df d).cols.length PyVal.vnone = PyVal.vnone := by
      rw [← hwr, ← hww]
      have hb1 : (list_to_df d).cols.length < (w0 ++ [PyVal.vnone]).length := by
        rw [List.length_append, List.length_singleton, hw0len, hcolslen]
        omega
      have hb2 : (list_to_df d).cols.length
          < ((w0 ++ [PyVal.vnone]) ++ List.replicate ecols.length PyVal.vnone).length := by
        rw [List.length_append]
        omega
      rw [List.getD_eq_getElem _ _ hb2]
      rw [List.getElem_append_left hb1]
      rw [List.getElem_append_right (Nat.le_of_eq (hw0len.trans hcolslen.symm))]
      have hz : (list_to_df d).cols.length - w0.length = 0 := by omega
      simp only [hz]
      rfl
    rw [hcell]
    rfl
  have hfind : (((list_to_df d).rows.map (fun r => r ++ [PyVal.vnone])).map
      (fun r => r ++ List.replicate ecols.length PyVal.vnone)).findIdx?
        (fun r => pyEq (r.getD (list_to_df d).cols.length PyVal.vnone) value) = none :=
    List.findIdx?_eq_none_iff.mpr hpred
  have hmain : update_row_by_column_pattern (list_to_df d) s value updates
      = .ok ⟨((list_to_df d).cols ++ [ColLabel.name s]) ++ ecols,
          (((list_to_df d).rows.map (fun r => r ++ [PyVal.vnone])).map
            (fun r => r ++ List.replicate ecols.length PyVal.vnone))
          ++ [new_row (((list_to_df d).cols ++ [ColLabel.name s]) ++ ecols) s value updates]⟩ := by
    unfold update_row_by_column_pattern
    rw [if_neg hs, if_neg (by rw [List.isEmpty_iff]; exact hupd)]
    dsimp only
    rw [e1, hdf2]
    dsimp only
    rw [hj2]
    simp only [Option.getD_some]
    rw [hfind]
  refine ⟨hnotmem, hlen0, _, hmain, ?_, ?_⟩
  · dsimp only
    rw [List.length_append, List.length_map, List.length_map, hlen0]
    rfl
  · intro i hi
    refine ⟨PyVal.vnone :: List.replicate ecols.length PyVal.vnone, ?_, ?_⟩
    · intro x hx
      rcases List.mem_cons.mp hx with h | h
      · exact h
      · exact (List.mem_replicate.mp h).2
    · dsimp only
      have hi1 : i < (list_to_df d).rows.length := by rw [hlen0]; exact hi
      have hi2 : i < ((list_to_df d).rows.map (fun r => r ++ [PyVal.vnone])).length := by
        rw [List.length_map]
        exact hi1
      have hi3 : i < (((list_to_df d).rows.map (fun r => r ++ [PyVal.vnone])).map
          (fun r => r ++ List.replicate ecols.length PyVal.vnone)).length := by
        rw [List.length_map]
        exact hi2
      rw [List.getD_append _ _ _ _ hi3]
      rw [getD_map_append _ _ _ hi2, getD_map_append _ _ _ hi1]
      rw [List.append_assoc]
      rfl

/-- Witness for `claim_C5_upsert`: the spec's upsert example, rows with
IDs 1, 2, 3 and `upsert(ID, 2, {Status: done})` updating exactly the
second row. -/
theorem claim_C5_upsert_witness :
    ∃ res, update_row_by_column_pattern
        ⟨[ColLabel.name "ID", ColLabel.name "Status"],
         [[PyVal.vint 1, PyVal.vstr "pending"],
          [PyVal.vint 2, PyVal.vstr "pending"],
          [PyVal.vint 3, PyVal.vstr "pending"]]⟩
        "ID" (PyVal.vint 2) [("Status", PyVal.vstr "done")] = .ok res ∧
      res.cols = [ColLabel.name "ID", ColLabel.name "Status"] ∧
      res.rows.length = [[PyVal.vint 1, PyVal.vstr "pending"],
          [PyVal.vint 2, PyVal.vstr "pending"],
          [PyVal.vint 3, PyVal.vstr "pending"]].length ∧
      (∀ k, k ≠ 1 → res.rows.getD k [] = [[PyVal.vint 1, PyVal.vstr "pending"],
          [PyVal.vint 2, PyVal.vstr "pending"],
          [PyVal.vint 3, PyVal.vstr "pending"]].getD k []) ∧
      (∀ c v m, dictGet [("Status", PyVal.vstr "done")] c = some v →
        colIdx [ColLabel.name "ID", ColLabel.name "Status"] (ColLabel.name c) = some m →
        (res.rows.getD 1 []).getD m PyVal.vnone = v) ∧
      (∀ m, (∀ u ∈ [("Status", PyVal.vstr "done")],
          colIdx [ColLabel.name "ID", ColLabel.name "Status"] (ColLabel.name u.1) ≠ some m) →
        (res.rows.getD 1 []).getD m PyVal.vnone
          = ([[PyVal.vint 1, PyVal.vstr "pending"],
              [PyVal.vint 2, PyVal.vstr "pending"],
              [PyVal.vint 3, PyVal.vstr "pending"]].getD 1 []).getD m PyVal.vnone) :=
  (claim_C5_upsert ⟨[ColLabel.name "ID", ColLabel.name "Status"],
      [[PyVal.vint 1, PyVal.vstr "pending"],
       [PyVal.vint 2, PyVal.vstr "pending"],
       [PyVal.vint 3, PyVal.vstr "pending"]]⟩
    "ID" (PyVal.vint 2) [("Status", PyVal.vstr "done")] 0
    (by decide) (by decide) (by decide) (by decide) (by decide) (by decide)).1 1
    (by decide) (by decide) (by decide)

/-- Witness for `claim_C9_list_upsert` on the row-list
`[["ID"], [1]]` upserted on the fresh column `Status`. -/
theorem claim_C9_list_upsert_witness :
    ColLabel.name "Status" ∉ (list_to_df [[PyVal.vstr "ID"], [PyVal.vint 1]]).cols ∧
    (list_to_df [[PyVal.vstr "ID"], [PyVal.vint 1]]).rows.length
      = [[PyVal.vstr "ID"], [PyVal.vint 1]].length ∧
    ∃ res, update_row_by_column_pattern (list_to_df [[PyVal.vstr "ID"], [PyVal.vint 1]])
        "Status" (PyVal.vint 2) [("X", PyVal.vint 3)] = .ok res ∧
      res.rows.length = [[PyVal.vstr "ID"], [PyVal.vint 1]].length + 1 ∧
      ∀ i, i < [[PyVal.vstr "ID"], [PyVal.vint 1]].length → ∃ ext : List PyVal,
        (∀ x ∈ ext, x = PyVal.vnone) ∧
        res.rows.getD i []
          = (list_to_df [[PyVal.vstr "ID"], [PyVal.vint 1]]).rows.getD i [] ++ ext :=
  claim_C9_list_upsert [[PyVal.vstr "ID"], [PyVal.vint 1]] "Status" (PyVal.vint 2)
    [("X", PyVal.vint 3)] (by decide) (by decide)
